import Mathlib

/-!
Verification of the ConsoleBank program (src/E1T06.py) against its
natural-language specification.

The embedding models Python strings as Lean `String`/`List Char`, Python
numbers (`float` amounts and `int` interest percentages) as exact rationals
and integers, and every fallible operation as an `Option`-returning function
whose `none`/error component models the raised-and-caught `ValueError` or the
printed error message of the source. Console input is modelled by passing the
line the user would type as an explicit `String` argument; console output is
dropped, keeping only the state change and the error classification.
-/

namespace ConsoleBank

/-- Numeric value of a decimal digit character: what `int(c)` returns in Python
for a character in `'0'..'9'`. -/
def digitValue (c : Char) : Nat := c.toNat - 48

/-- Python `int(c)` on a single character: succeeds exactly on decimal digits
and raises `ValueError` (here `none`) otherwise. -/
def digitVal? (c : Char) : Option Nat :=
  if c.isDigit then some (digitValue c) else none

/-- A character matched by `\w` in the source's regular expressions
(ASCII model: letters, digits, underscore). -/
def isWordChar (c : Char) : Bool := c.isAlphanum || c == '_'

/-- Value of a nonempty decimal digit string, most significant digit first:
the value Python's `int`/`float` parsing assigns to a run of digits. -/
def digitsToNat (l : List Char) : Nat :=
  l.foldl (fun acc c => acc * 10 + digitValue c) 0

/-- Whether a numeric literal starts with a minus sign. -/
def signIsNeg (l : List Char) : Bool :=
  match l with
  | c :: _ => c == '-'
  | [] => false

/-- Drop a single leading sign character from a numeric literal. -/
def dropSign (l : List Char) : List Char :=
  match l with
  | c :: r => if c == '-' || c == '+' then r else l
  | [] => l

/-- Python `int(s)` as used at source line 207 and 321, modelled on the forms a
user types: an optional sign followed by one or more decimal digits; anything
else (in particular a string with a decimal point, such as `"5.5"`) raises
`ValueError`, here `none`. -/
def parsePyInt (s : String) : Option Int :=
  let rest := dropSign s.data
  if rest.isEmpty || !rest.all Char.isDigit then none
  else some (if signIsNeg s.data then -(digitsToNat rest : Int) else (digitsToNat rest : Int))

/-- Python `float(s)` as used at source lines 109, 120 and 206, modelled on the
forms a user types: an optional sign, then either a run of digits or a decimal
literal `digits.digits` where at least one side of the point is nonempty;
anything else raises `ValueError`, here `none`. The value is exact (ℚ). -/
def parsePyFloat (s : String) : Option ℚ :=
  let rest := dropSign s.data
  let ip := rest.takeWhile Char.isDigit
  let fpart := rest.dropWhile Char.isDigit
  match fpart with
  | [] =>
    if ip.isEmpty then none
    else some (if signIsNeg s.data then -(digitsToNat ip : ℚ) else (digitsToNat ip : ℚ))
  | '.' :: fp =>
    if (ip.isEmpty && fp.isEmpty) || !fp.all Char.isDigit then none
    else
      let q : ℚ := (digitsToNat ip : ℚ) + (digitsToNat fp : ℚ) / (10 : ℚ) ^ fp.length
      some (if signIsNeg s.data then -q else q)
  | _ => none

/-- Match exactly `n` word characters at the front of `l`, returning the rest
of the list; the building block for the source's anchored regular expressions. -/
def matchRun : Nat → List Char → Option (List Char)
  | 0, l => some l
  | _ + 1, [] => none
  | n + 1, c :: cs => if isWordChar c then matchRun n cs else none

/-- Source line 174: whole-string match of six word characters, a hyphen, four
word characters. -/
def shape6h4 (l : List Char) : Bool :=
  match matchRun 6 l with
  | some ('-' :: r) => matchRun 4 r == some []
  | _ => false

/-- Source line 175: whole-string match of eight word characters, a hyphen,
four word characters. -/
def shape8h4 (l : List Char) : Bool :=
  match matchRun 8 l with
  | some ('-' :: r) => matchRun 4 r == some []
  | _ => false

/-- Source lines 176-177: whole-string match of exactly `n` word characters. -/
def shapeAllWord (n : Nat) (l : List Char) : Bool := matchRun n l == some []

/-- The four accepted raw formats of `Bank.validate_luhn`, source lines 174-177. -/
def matchesShape (l : List Char) : Bool :=
  shape6h4 l || shape8h4 l || shapeAllWord 12 l || shapeAllWord 10 l

/-- Source line 180, `civic_number.replace('-', '')`: remove every hyphen. -/
def stripHyphens (l : List Char) : List Char := l.filter (fun c => c != '-')

/-- Source lines 182-183: when twelve characters remain, drop the two-character
century prefix. -/
def dropCentury (l : List Char) : List Char :=
  if l.length == 12 then l.drop 2 else l

/-- The ten-character working string of `validate_luhn`: hyphens stripped and
the century prefix dropped. -/
def coreOf (l : List Char) : List Char := dropCentury (stripHyphens l)

/-- The concatenated checksum string built by the loop at source lines 185-188:
for each 0-based index `i` and digit value `d` of the first nine digits, append
`str(d * (2 - i % 2))`. -/
def checksumString (ds : List Nat) : List Char :=
  (ds.enum.map (fun p => (Nat.repr (p.2 * (2 - p.1 % 2))).data)).flatten

/-- `Bank.validate_luhn` (source lines 152-197) as a pure function. `none`
models a raised `ValueError`: the shape mismatch at line 178, a non-digit among
the nine checksummed characters at line 188, or the failing check-digit
comparison at lines 193-194. On success it returns the canonical hyphenated
string rebuilt at line 196. -/
def normalize (s : String) : Option String :=
  if matchesShape s.data then
    let core := coreOf s.data
    match core.dropLast.mapM digitVal? with
    | none => none
    | some ds =>
      let checksum := ((checksumString ds).map digitValue).sum
      let check_digit := (10 - checksum % 10) % 10
      match core.getLast? with
      | none => none
      | some last =>
        if (Nat.repr check_digit).data == [last] then
          some (String.mk (core.take 6 ++ '-' :: core.drop 6))
        else none
  else none

/-- Modelled from the claim text of C1: the weighted sum S over the first nine
digit characters, adding up the decimal digits of each product
`digit * weight`, with weight 2 at even 0-based index and 1 at odd index. -/
def specWeightedSum (core : List Char) : Nat :=
  ((core.take 9).enum.map (fun p =>
    ((Nat.repr (digitValue p.2 * (if p.1 % 2 = 0 then 2 else 1))).data.map digitValue).sum)).sum

/-- Modelled from the claim text of C1: the 10th digit equals
`(10 - (S mod 10)) mod 10`. -/
def specCheckOk (core : List Char) : Prop :=
  digitValue (core.getD 9 '0') = (10 - specWeightedSum core % 10) % 10

/-- One bank client, `Client.__init__` fields (source lines 98-101). Monetary
amounts and the stored interest fraction are modelled as exact rationals. -/
structure Client where
  name : String
  civic_number : String
  balance : ℚ
  interest_rate : ℚ

/-- `Client.__init__` (source lines 84-101): the entered interest percentage is
divided by 100 before being stored. -/
def Client.init (name civic_number : String) (balance interest_rate : ℚ) : Client :=
  { name := name, civic_number := civic_number, balance := balance,
    interest_rate := interest_rate / 100 }

/-- Error outcomes of `Client.deposit` and `Client.withdraw`. -/
inductive OpError where
  | wrongAmount
  | negativeAmount
  | notEnoughMoney
deriving DecidableEq

/-- `Client.deposit` (source lines 106-115): parse the typed amount as a float,
reject a parse failure or a negative amount without touching the balance,
otherwise add the amount to the balance. -/
def Client.deposit (c : Client) (input : String) : Client × Option OpError :=
  match parsePyFloat input with
  | none => (c, some OpError.wrongAmount)
  | some amt =>
    if amt < 0 then (c, some OpError.negativeAmount)
    else ({ c with balance := c.balance + amt }, none)

/-- `Client.withdraw` (source lines 117-129): parse the typed amount as a
float; the insufficient-funds check at line 121 runs before the negativity
check at line 124; both error paths leave the balance untouched. -/
def Client.withdraw (c : Client) (input : String) : Client × Option OpError :=
  match parsePyFloat input with
  | none => (c, some OpError.wrongAmount)
  | some amt =>
    if amt > c.balance then (c, some OpError.notEnoughMoney)
    else if amt < 0 then (c, some OpError.negativeAmount)
    else ({ c with balance := c.balance - amt }, none)

/-- Python `str.capitalize()` as applied at source line 204 (ASCII model):
first character uppercased, every remaining character lowercased. -/
def pyCapitalize (s : String) : String :=
  match s.data with
  | [] => ""
  | c :: rest => String.mk (c.toUpper :: rest.map Char.toLower)

/-- Error outcomes of `Bank.create_client`. -/
inductive CreateError where
  | wrongInput
  | wrongCivic
  | negativeValues
deriving DecidableEq

/-- `Bank.create_client` (source lines 200-223) as a function of the four typed
input lines. The two numeric parses happen first inside one `try` block
(`wrongInput` on failure), then the civic number is validated (`wrongCivic` on
failure), then negative balance or interest is rejected, and only then is the
new client appended to the list. -/
def create_client (clients : List Client)
    (nameInput civicInput balanceInput interestInput : String) :
    List Client × Option CreateError :=
  match parsePyFloat balanceInput, parsePyInt interestInput with
  | some balance, some interest =>
    match normalize civicInput with
    | none => (clients, some CreateError.wrongCivic)
    | some civic =>
      if balance < 0 ∨ interest < 0 then (clients, some CreateError.negativeValues)
      else (clients ++ [Client.init (pyCapitalize nameInput) civic balance (interest : ℚ)], none)
  | _, _ => (clients, some CreateError.wrongInput)

/-- Error outcomes of `BankApp.login_user`. -/
inductive LoginError where
  | noAccounts
  | wrongSelection
  | accountDoesNotExist
deriving DecidableEq

/-- `BankApp.login_user` (source lines 303-317) as a function of the client
list and the typed selection line, returning the new `current_user` binding
and the reported error. Mirrors the source exactly: an empty bank reports
`noAccounts`; a non-numeric line reports `wrongSelection`; the Python
truthiness test `if selection:` also sends the integer 0 to `wrongSelection`;
a nonzero integer outside `1..len(clients)` reports `accountDoesNotExist`;
otherwise the client at the 1-based position is bound. -/
def login_user (clients : List Client) (input : String) :
    Option Client × Option LoginError :=
  if clients.length > 0 then
    match parsePyInt input with
    | none => (none, some LoginError.wrongSelection)
    | some selection =>
      if selection ≠ 0 then
        if 1 ≤ selection ∧ selection ≤ clients.length then
          (clients.get? (selection - 1).toNat, none)
        else (none, some LoginError.accountDoesNotExist)
      else (none, some LoginError.wrongSelection)
  else (none, some LoginError.noAccounts)

/-- A sample client used in concrete witnesses and counterexamples. -/
def sampleClient : Client := Client.mk "A" "811228-9874" 5 (5 / 100)

/-! Concrete evaluations of the numeric parsers, used to discharge hypotheses
of the main theorems at concrete inputs. -/

theorem parseFloat_five : parsePyFloat "5" = some 5 := by
  rw [show parsePyFloat "5" = some ((digitsToNat ['5'] : ℚ)) from rfl,
    show digitsToNat ['5'] = 5 from rfl]
  norm_num

theorem parseFloat_seven : parsePyFloat "7" = some 7 := by
  rw [show parsePyFloat "7" = some ((digitsToNat ['7'] : ℚ)) from rfl,
    show digitsToNat ['7'] = 7 from rfl]
  norm_num

theorem parseFloat_neg_five : parsePyFloat "-5" = some (-5) := by
  rw [show parsePyFloat "-5" = some (-(digitsToNat ['5'] : ℚ)) from rfl,
    show digitsToNat ['5'] = 5 from rfl]
  norm_num

theorem parseFloat_five_point_five : parsePyFloat "5.5" = some (11 / 2) := by
  rw [show parsePyFloat "5.5" =
      some ((digitsToNat ['5'] : ℚ) + (digitsToNat ['5'] : ℚ) / (10 : ℚ) ^ 1) from rfl,
    show digitsToNat ['5'] = 5 from rfl]
  norm_num

theorem parseInt_five : parsePyInt "5" = some 5 := rfl

theorem parseInt_two_hundred : parsePyInt "200" = some 200 := rfl

theorem parseInt_five_point_five : parsePyInt "5.5" = none := rfl

theorem normalize_sample : normalize "811228-9874" = some "811228-9874" := rfl

/-- C2: the balance is never negative after any committed operation.
`create_client` rejects a negative initial balance, so every client it adds has
a nonnegative balance; `Client.deposit` rejects negative amounts and preserves
nonnegativity; `Client.withdraw` rejects negative amounts and amounts above the
balance and preserves nonnegativity. -/
theorem balance_nonneg_invariant :
    (∀ (clients : List Client) (n cv b i : String) (c : Client),
        c ∈ (create_client clients n cv b i).1 → c ∈ clients ∨ 0 ≤ c.balance)
    ∧ (∀ (c : Client) (input : String), 0 ≤ c.balance → 0 ≤ (c.deposit input).1.balance)
    ∧ (∀ (c : Client) (input : String), 0 ≤ c.balance → 0 ≤ (c.withdraw input).1.balance) := by
  refine ⟨?_, ?_, ?_⟩
  · intro clients n cv b i c hc
    unfold create_client at hc
    rcases hb : parsePyFloat b with _ | bal <;> rcases hi : parsePyInt i with _ | itr <;>
      rw [hb, hi] at hc
    · exact Or.inl hc
    · exact Or.inl hc
    · exact Or.inl hc
    · rcases hn : normalize cv with _ | civic <;> rw [hn] at hc <;> dsimp only at hc
      · exact Or.inl hc
      · by_cases hneg : bal < 0 ∨ itr < 0
        · rw [if_pos hneg] at hc
          exact Or.inl hc
        · rw [if_neg hneg] at hc
          rcases List.mem_append.mp hc with h | h
          · exact Or.inl h
          · right
            rcases List.mem_singleton.mp h with rfl
            push_neg at hneg
            exact hneg.1
  · intro c input hb
    unfold Client.deposit
    rcases hp : parsePyFloat input with _ | amt
    · exact hb
    · dsimp only
      by_cases hneg : amt < 0
      · rw [if_pos hneg]
        exact hb
      · rw [if_neg hneg]
        push_neg at hneg
        dsimp only
        linarith
  · intro c input hb
    unfold Client.withdraw
    rcases hp : parsePyFloat input with _ | amt
    · exact hb
    · dsimp only
      by_cases hgt : amt > c.balance
      · rw [if_pos hgt]
        exact hb
      · rw [if_neg hgt]
        by_cases hneg : amt < 0
        · rw [if_pos hneg]
          exact hb
        · rw [if_neg hneg]
          push_neg at hgt
          dsimp only
          linarith

/-- Witness for C2 at a concrete client and input. -/
theorem balance_nonneg_invariant_witness :
    0 ≤ ((Client.mk "A" "811228-9874" 5 (5 / 100)).deposit "3").1.balance :=
  balance_nonneg_invariant.2.1 _ "3" (by norm_num)

/-- C3: for every account and every parsed amount strictly above the balance,
`Client.withdraw` reports insufficient funds (the source's "Not enough money")
and returns the client completely unchanged. -/
theorem withdraw_insufficient_funds (c : Client) (input : String) (amt : ℚ)
    (hp : parsePyFloat input = some amt) (hgt : amt > c.balance) :
    c.withdraw input = (c, some OpError.notEnoughMoney) := by
  unfold Client.withdraw
  rw [hp]
  dsimp only
  rw [if_pos hgt]

/-- Witness for C3: withdrawing 7 from a balance of 5 fails and changes nothing. -/
theorem withdraw_insufficient_funds_witness :
    sampleClient.withdraw "7" = (sampleClient, some OpError.notEnoughMoney) :=
  withdraw_insufficient_funds sampleClient "7" 7 parseFloat_seven (by
    show (7 : ℚ) > sampleClient.balance
    norm_num [sampleClient])

/-- C5: depositing a positive parsed amount and then withdrawing the same
amount restores the original balance, for every account satisfying the
nonnegative-balance invariant. -/
theorem deposit_withdraw_roundtrip (c : Client) (input : String) (amt : ℚ)
    (hp : parsePyFloat input = some amt) (hpos : 0 < amt) (hbal : 0 ≤ c.balance) :
    ((c.deposit input).1.withdraw input).1.balance = c.balance := by
  unfold Client.deposit Client.withdraw
  rw [hp]
  dsimp only
  rw [if_neg (not_lt.mpr hpos.le)]
  dsimp only
  rw [if_neg (by linarith : ¬ amt > c.balance + amt), if_neg (not_lt.mpr hpos.le)]
  dsimp only
  ring

/-- Witness for C5 at a concrete client and amount. -/
theorem deposit_withdraw_roundtrip_witness :
    ((sampleClient.deposit "5").1.withdraw "5").1.balance = sampleClient.balance :=
  deposit_withdraw_roundtrip sampleClient "5" 5 parseFloat_five (by norm_num)
    (by norm_num [sampleClient])

/-- Concrete successful registration used by several witnesses. -/
theorem create_sample :
    create_client [] "bob" "811228-9874" "5" "5" =
      ([Client.init (pyCapitalize "bob") "811228-9874" 5 5], none) := by
  unfold create_client
  rw [parseFloat_five, parseInt_five, normalize_sample]
  dsimp only
  rw [if_neg (by norm_num : ¬ ((5 : ℚ) < 0 ∨ (5 : Int) < 0))]
  norm_num

/-- C7: when the civic number fails validation, `create_client` reports the
civic-number error and leaves the client list unchanged; because this holds for
arbitrary (even negative) parsed balance and interest values, the civic check
indeed runs before the balance and interest checks. -/
theorem invalid_civic_never_appends (clients : List Client) (n cv b i : String)
    (bal : ℚ) (itr : Int) (hb : parsePyFloat b = some bal) (hi : parsePyInt i = some itr)
    (hn : normalize cv = none) :
    create_client clients n cv b i = (clients, some CreateError.wrongCivic) := by
  unfold create_client
  rw [hb, hi, hn]

/-- Witness for C7: a malformed civic number is rejected even alongside a
negative balance, and the ledger stays empty. -/
theorem invalid_civic_never_appends_witness :
    create_client [] "bob" "123" "-5" "5" = ([], some CreateError.wrongCivic) :=
  invalid_civic_never_appends [] "bob" "123" "-5" "5" (-5) 5
    parseFloat_neg_five parseInt_five rfl

/-- C9: every successfully stored client carries the capitalized form of the
typed name, with the first character uppercased and all remaining characters
lowercased; in particular the input "John Smith" is stored as "John smith",
not verbatim. -/
theorem name_stored_capitalized :
    (∀ (clients cs : List Client) (n cv b i : String),
        create_client clients n cv b i = (cs, none) →
        ∃ c, cs = clients ++ [c] ∧ c.name = pyCapitalize n)
    ∧ pyCapitalize "John Smith" = "John smith"
    ∧ pyCapitalize "John Smith" ≠ "John Smith" := by
  refine ⟨?_, by decide, by decide⟩
  intro clients cs n cv b i h
  unfold create_client at h
  rcases hb : parsePyFloat b with _ | bal <;> rcases hi : parsePyInt i with _ | itr <;>
    rw [hb, hi] at h <;> dsimp only at h
  · exact absurd (congrArg Prod.snd h) (by simp)
  · exact absurd (congrArg Prod.snd h) (by simp)
  · exact absurd (congrArg Prod.snd h) (by simp)
  · rcases hn : normalize cv with _ | civic <;> rw [hn] at h <;> dsimp only at h
    · exact absurd (congrArg Prod.snd h) (by simp)
    · by_cases hneg : bal < 0 ∨ itr < 0
      · rw [if_pos hneg] at h
        exact absurd (congrArg Prod.snd h) (by simp)
      · rw [if_neg hneg] at h
        exact ⟨_, (congrArg Prod.fst h).symm, rfl⟩

/-- Witness for C9 at a concrete successful registration. -/
theorem name_stored_capitalized_witness :
    ∃ c, [Client.init (pyCapitalize "bob") "811228-9874" 5 5] = [] ++ [c]
      ∧ c.name = pyCapitalize "bob" :=
  name_stored_capitalized.1 [] _ "bob" "811228-9874" "5" "5" create_sample

/-- C10: the interest line is parsed with `int`, so any non-integer interest
input (such as "5.5") makes registration fail with the wrong-input error and
append nothing, while the balance line is parsed with `float` and accepts the
decimal value 5.5 in an otherwise successful registration. -/
theorem interest_parsed_as_integer :
    (∀ (clients : List Client) (n cv b i : String), parsePyInt i = none →
        create_client clients n cv b i = (clients, some CreateError.wrongInput))
    ∧ parsePyInt "5.5" = none
    ∧ parsePyFloat "5.5" = some (11 / 2)
    ∧ create_client [] "bob" "811228-9874" "5.5" "5" =
        ([Client.init (pyCapitalize "bob") "811228-9874" (11 / 2) 5], none) := by
  refine ⟨?_, rfl, parseFloat_five_point_five, ?_⟩
  · intro clients n cv b i hi
    unfold create_client
    rcases hb : parsePyFloat b with _ | bal <;> rw [hi]
  · unfold create_client
    rw [parseFloat_five_point_five, parseInt_five, normalize_sample]
    dsimp only
    rw [if_neg (by norm_num : ¬ ((11 / 2 : ℚ) < 0 ∨ (5 : Int) < 0))]
    norm_num

/-- Witness for C10: registering with the interest line "5.5" fails with the
wrong-input error and keeps the ledger empty. -/
theorem interest_parsed_as_integer_witness :
    create_client [] "bob" "811228-9874" "5" "5.5" = ([], some CreateError.wrongInput) :=
  interest_parsed_as_integer.1 [] "bob" "811228-9874" "5" "5.5" rfl

/-- Concrete registration with interest percentage 200, used for the C6
counterexample. -/
theorem create_sample_high_interest :
    create_client [] "bob" "811228-9874" "5" "200" =
      ([Client.init (pyCapitalize "bob") "811228-9874" 5 200], none) := by
  unfold create_client
  rw [parseFloat_five, parseInt_two_hundred, normalize_sample]
  dsimp only
  rw [if_neg (by norm_num : ¬ ((5 : ℚ) < 0 ∨ (200 : Int) < 0))]
  norm_num

/-- C6 counterexample: entering interest percentage 200 successfully creates an
account whose stored rate is 2, outside the claimed interval [0, 1], so the
claim fails at this input. -/
theorem interest_rate_above_one :
    ∃ c, (create_client [] "bob" "811228-9874" "5" "200").1 = [c]
      ∧ c.interest_rate = 2 ∧ ¬ c.interest_rate ≤ 1 := by
  refine ⟨Client.init (pyCapitalize "bob") "811228-9874" 5 200, ?_, ?_, ?_⟩
  · rw [create_sample_high_interest]
  · show (200 : ℚ) / 100 = 2
    norm_num
  · show ¬ (200 : ℚ) / 100 ≤ 1
    norm_num

/-- C6 amended: every account created with entered interest percentage p stores
the rate p / 100, and that rate is nonnegative; the code enforces no upper
bound, so the rate lies in [0, 1] only when p is at most 100. -/
theorem interest_rate_stored_fraction (clients cs : List Client) (n cv b i : String)
    (p : Int) (hi : parsePyInt i = some p)
    (h : create_client clients n cv b i = (cs, none)) :
    ∃ c, cs = clients ++ [c] ∧ c.interest_rate = (p : ℚ) / 100 ∧ 0 ≤ c.interest_rate := by
  unfold create_client at h
  rw [hi] at h
  rcases hb : parsePyFloat b with _ | bal <;> rw [hb] at h <;> dsimp only at h
  · exact absurd (congrArg Prod.snd h) (by simp)
  · rcases hn : normalize cv with _ | civic <;> rw [hn] at h <;> dsimp only at h
    · exact absurd (congrArg Prod.snd h) (by simp)
    · by_cases hneg : bal < 0 ∨ p < 0
      · rw [if_pos hneg] at h
        exact absurd (congrArg Prod.snd h) (by simp)
      · rw [if_neg hneg] at h
        push_neg at hneg
        refine ⟨_, (congrArg Prod.fst h).symm, rfl, ?_⟩
        show 0 ≤ (p : ℚ) / 100
        have hp0 : (0 : ℚ) ≤ (p : ℚ) := by exact_mod_cast hneg.2
        positivity

/-- Witness for the amended C6 at a concrete registration. -/
theorem interest_rate_stored_fraction_witness :
    ∃ c, [Client.init (pyCapitalize "bob") "811228-9874" 5 5] = [] ++ [c]
      ∧ c.interest_rate = ((5 : Int) : ℚ) / 100 ∧ 0 ≤ c.interest_rate :=
  interest_rate_stored_fraction [] _ "bob" "811228-9874" "5" "5" 5 parseInt_five create_sample

/-- C4 counterexample: with one account, the integer selection 0 is below the
valid range, yet it is reported with the wrong-selection error (the error used
for non-numeric input, via the Python truthiness test on the parsed integer),
not with the out-of-range error the claim names. -/
theorem login_zero_not_out_of_range :
    login_user [sampleClient] "0" = (none, some LoginError.wrongSelection)
    ∧ LoginError.wrongSelection ≠ LoginError.accountDoesNotExist :=
  ⟨rfl, by decide⟩

/-- C4 amended: with a nonempty account list and a parsed integer selection,
selection 0 fails with the wrong-selection error; every other selection outside
1..count fails with the out-of-range error; in every failure case no account is
bound (the session stays GUEST); and every selection within 1..count binds the
account at that 1-based position. -/
theorem login_selection_resolution (clients : List Client) (input : String) (sel : Int)
    (hne : 0 < clients.length) (hp : parsePyInt input = some sel) :
    (sel = 0 → login_user clients input = (none, some LoginError.wrongSelection))
    ∧ ((sel < 0 ∨ (clients.length : Int) < sel) →
        login_user clients input = (none, some LoginError.accountDoesNotExist))
    ∧ (1 ≤ sel → sel ≤ (clients.length : Int) →
        ∃ hlt : (sel - 1).toNat < clients.length,
          login_user clients input = (some (clients.get ⟨(sel - 1).toNat, hlt⟩), none)) := by
  unfold login_user
  rw [if_pos hne, hp]
  dsimp only
  refine ⟨?_, ?_, ?_⟩
  · intro h0
    rw [if_neg (by omega : ¬ sel ≠ 0)]
  · intro hout
    rw [if_pos (by omega : sel ≠ 0), if_neg (by omega : ¬ (1 ≤ sel ∧ sel ≤ (clients.length : Int)))]
  · intro h1 h2
    have hlt : (sel - 1).toNat < clients.length := by omega
    refine ⟨hlt, ?_⟩
    rw [if_pos (by omega : sel ≠ 0), if_pos ⟨h1, h2⟩, List.get?_eq_get hlt]

/-- Witness for the amended C4: selecting 1 from a one-account list logs in as
that account. -/
theorem login_selection_resolution_witness :
    login_user [sampleClient] "1" = (some sampleClient, none) := by
  obtain ⟨hlt, h⟩ := (login_selection_resolution [sampleClient] "1" 1 (by decide) rfl).2.2
    (by decide) (by decide)
  rw [h]
  rfl

/-! Supporting lemmas about characters, the shape matchers, and the checksum,
used to settle the claims about `normalize`. -/

theorem isDigit_toNat {c : Char} (h : c.isDigit = true) : 48 ≤ c.toNat ∧ c.toNat ≤ 57 := by
  simp only [Char.isDigit, Bool.and_eq_true, decide_eq_true_eq] at h
  exact h

theorem repr_digit_eq (k : Nat) (hk : k < 10) : (Nat.repr k).data = [Char.ofNat (48 + k)] := by
  interval_cases k <;> rfl

theorem toNat_ofNat_digit (k : Nat) (hk : k < 10) : (Char.ofNat (48 + k)).toNat = 48 + k := by
  interval_cases k <;> rfl

theorem ofNat_digit_isDigit (k : Nat) (hk : k < 10) : (Char.ofNat (48 + k)).isDigit = true := by
  interval_cases k <;> rfl

theorem digit_char_iff {c : Char} {k : Nat} (hd : c.isDigit = true) (hk : k < 10) :
    (((Nat.repr k).data == [c]) = true) ↔ digitValue c = k := by
  obtain ⟨h48, _⟩ := isDigit_toNat hd
  rw [repr_digit_eq k hk]
  constructor
  · intro h
    rw [beq_iff_eq] at h
    have hc : Char.ofNat (48 + k) = c := by injection h
    have ht := toNat_ofNat_digit k hk
    rw [hc] at ht
    unfold digitValue
    omega
  · intro h
    have hcn : c.toNat = 48 + k := by
      unfold digitValue at h
      omega
    have hc : c = Char.ofNat (48 + k) := by rw [← hcn, Char.ofNat_toNat]
    rw [hc, beq_iff_eq]

theorem isDigit_isWordChar {c : Char} (h : c.isDigit = true) : isWordChar c = true := by
  simp only [isWordChar, Char.isAlphanum, Bool.or_eq_true]
  exact Or.inl (Or.inr h)

theorem wordChar_ne_hyphen {c : Char} (h : isWordChar c = true) : (c != '-') = true := by
  rcases eq_or_ne c '-' with rfl | hne
  · exact absurd h (by decide)
  · simpa using hne

theorem matchRun_eq_some {n : Nat} {l r : List Char} :
    matchRun n l = some r ↔ ∃ a, l = a ++ r ∧ a.length = n ∧ a.all isWordChar = true := by
  induction n generalizing l with
  | zero =>
    constructor
    · intro h
      exact ⟨[], by simpa [matchRun] using h, rfl, rfl⟩
    · rintro ⟨a, rfl, ha, -⟩
      rw [List.length_eq_zero.mp ha]
      rfl
  | succ m ih =>
    constructor
    · intro h
      cases l with
      | nil => exact absurd h (by simp [matchRun])
      | cons c cs =>
        unfold matchRun at h
        by_cases hw : isWordChar c = true
        · rw [if_pos hw] at h
          obtain ⟨a, rfl, ha, haw⟩ := ih.mp h
          exact ⟨c :: a, rfl, by simp [ha], by simp [hw, haw]⟩
        · rw [if_neg hw] at h
          exact absurd h (by simp)
    · rintro ⟨a, rfl, ha, haw⟩
      cases a with
      | nil => simp at ha
      | cons c cs =>
        simp only [List.all_cons, Bool.and_eq_true] at haw
        rw [List.length_cons] at ha
        rw [List.cons_append,
          show matchRun (m + 1) (c :: (cs ++ r)) =
            if isWordChar c then matchRun m (cs ++ r) else none from rfl,
          if_pos haw.1]
        exact ih.mpr ⟨cs, rfl, by omega, haw.2⟩

theorem shape6h4_iff {l : List Char} :
    shape6h4 l = true ↔
      ∃ a b, l = a ++ '-' :: b ∧ a.length = 6 ∧ a.all isWordChar = true
        ∧ b.length = 4 ∧ b.all isWordChar = true := by
  unfold shape6h4
  constructor
  · intro h
    rcases hm : matchRun 6 l with _ | rest <;> rw [hm] at h
    · exact absurd h (by simp)
    · rcases rest with _ | ⟨c, r⟩
      · exact absurd h (by simp)
      · rcases eq_or_ne c '-' with rfl | hne
        · simp only [beq_iff_eq] at h
          obtain ⟨a, rfl, ha6, haw⟩ := matchRun_eq_some.mp hm
          obtain ⟨b, hb, hb4, hbw⟩ := matchRun_eq_some.mp h
          rw [List.append_nil] at hb
          exact ⟨a, r, by rw [hb], ha6, haw, hb ▸ hb4, hb ▸ hbw⟩
        · rcases r with _ | _ <;> simp [hne] at h
  · rintro ⟨a, b, rfl, ha6, haw, hb4, hbw⟩
    have hm6 : matchRun 6 (a ++ '-' :: b) = some ('-' :: b) :=
      matchRun_eq_some.mpr ⟨a, rfl, ha6, haw⟩
    have hm4 : matchRun 4 b = some [] :=
      matchRun_eq_some.mpr ⟨b, by simp, hb4, hbw⟩
    rw [hm6]
    show (matchRun 4 b == some []) = true
    rw [hm4]
    rfl

theorem shape8h4_iff {l : List Char} :
    shape8h4 l = true ↔
      ∃ a b, l = a ++ '-' :: b ∧ a.length = 8 ∧ a.all isWordChar = true
        ∧ b.length = 4 ∧ b.all isWordChar = true := by
  unfold shape8h4
  constructor
  · intro h
    rcases hm : matchRun 8 l with _ | rest <;> rw [hm] at h
    · exact absurd h (by simp)
    · rcases rest with _ | ⟨c, r⟩
      · exact absurd h (by simp)
      · rcases eq_or_ne c '-' with rfl | hne
        · simp only [beq_iff_eq] at h
          obtain ⟨a, rfl, ha8, haw⟩ := matchRun_eq_some.mp hm
          obtain ⟨b, hb, hb4, hbw⟩ := matchRun_eq_some.mp h
          rw [List.append_nil] at hb
          exact ⟨a, r, by rw [hb], ha8, haw, hb ▸ hb4, hb ▸ hbw⟩
        · rcases r with _ | _ <;> simp [hne] at h
  · rintro ⟨a, b, rfl, ha8, haw, hb4, hbw⟩
    have hm8 : matchRun 8 (a ++ '-' :: b) = some ('-' :: b) :=
      matchRun_eq_some.mpr ⟨a, rfl, ha8, haw⟩
    have hm4 : matchRun 4 b = some [] :=
      matchRun_eq_some.mpr ⟨b, by simp, hb4, hbw⟩
    rw [hm8]
    show (matchRun 4 b == some []) = true
    rw [hm4]
    rfl

theorem shapeAllWord_iff {n : Nat} {l : List Char} :
    shapeAllWord n l = true ↔ l.length = n ∧ l.all isWordChar = true := by
  unfold shapeAllWord
  rw [beq_iff_eq]
  constructor
  · intro h
    obtain ⟨a, ha, hlen, haw⟩ := matchRun_eq_some.mp h
    rw [List.append_nil] at ha
    exact ⟨ha ▸ hlen, ha ▸ haw⟩
  · rintro ⟨hlen, hw⟩
    exact matchRun_eq_some.mpr ⟨l, by simp, hlen, hw⟩

theorem stripHyphens_of_word {a : List Char} (h : a.all isWordChar = true) :
    stripHyphens a = a := by
  unfold stripHyphens
  rw [List.filter_eq_self]
  intro c hc
  exact wordChar_ne_hyphen (by simpa using List.all_eq_true.mp h c hc)

theorem stripHyphens_append (a b : List Char) :
    stripHyphens (a ++ b) = stripHyphens a ++ stripHyphens b := by
  unfold stripHyphens
  exact List.filter_append _ _

theorem stripHyphens_hyphen_cons (b : List Char) :
    stripHyphens ('-' :: b) = stripHyphens b := by
  unfold stripHyphens
  simp

theorem dropCentury_of_len10 {l : List Char} (h : l.length = 10) : dropCentury l = l := by
  unfold dropCentury
  rw [h]
  rfl

theorem dropCentury_of_len12 {l : List Char} (h : l.length = 12) : dropCentury l = l.drop 2 := by
  unfold dropCentury
  rw [h]
  rfl

theorem coreOf_length {l : List Char} (h : matchesShape l = true) :
    (coreOf l).length = 10 := by
  unfold matchesShape at h
  simp only [Bool.or_eq_true] at h
  unfold coreOf
  rcases h with ((h | h) | h) | h
  · obtain ⟨a, b, rfl, ha6, haw, hb4, hbw⟩ := shape6h4_iff.mp h
    rw [stripHyphens_append, stripHyphens_hyphen_cons,
      stripHyphens_of_word haw, stripHyphens_of_word hbw]
    rw [dropCentury_of_len10 (by rw [List.length_append]; omega)]
    rw [List.length_append]
    omega
  · obtain ⟨a, b, rfl, ha8, haw, hb4, hbw⟩ := shape8h4_iff.mp h
    rw [stripHyphens_append, stripHyphens_hyphen_cons,
      stripHyphens_of_word haw, stripHyphens_of_word hbw]
    rw [dropCentury_of_len12 (by rw [List.length_append]; omega)]
    rw [List.length_drop, List.length_append]
    omega
  · obtain ⟨hlen, hw⟩ := shapeAllWord_iff.mp h
    rw [stripHyphens_of_word hw, dropCentury_of_len12 hlen, List.length_drop]
    omega
  · obtain ⟨hlen, hw⟩ := shapeAllWord_iff.mp h
    rw [stripHyphens_of_word hw, dropCentury_of_len10 hlen]
    exact hlen

theorem mapM_digitVal_eq (l : List Char) :
    l.mapM digitVal? = if l.all Char.isDigit then some (l.map digitValue) else none := by
  induction l with
  | nil => rfl
  | cons c cs ih =>
    rw [List.mapM_cons, ih]
    by_cases hc : c.isDigit
    · by_cases hcs : cs.all Char.isDigit
      · simp [digitVal?, hc, hcs]
      · simp [digitVal?, hc, hcs]
    · simp [digitVal?, hc]

theorem weight_eq (i : Nat) : 2 - i % 2 = if i % 2 = 0 then 2 else 1 := by
  rcases Nat.mod_two_eq_zero_or_one i with h | h <;> simp [h]

theorem checksum_eq_spec (m : List Char) :
    ((checksumString (m.map digitValue)).map digitValue).sum
      = (m.enum.map (fun p =>
          ((Nat.repr (digitValue p.2 * (if p.1 % 2 = 0 then 2 else 1))).data.map
            digitValue).sum)).sum := by
  unfold checksumString
  rw [List.map_flatten, List.sum_flatten, List.enum_map, List.map_map, List.map_map,
    List.map_map]
  refine congrArg List.sum (List.map_congr_left ?_)
  intro p _
  rcases p with ⟨i, c⟩
  simp [Function.comp, Prod.map, weight_eq]

theorem dropLast_eq_take9 {core : List Char} (h : core.length = 10) :
    core.dropLast = core.take 9 := by
  rw [List.dropLast_eq_take, h]

theorem getD9_eq_last {core : List Char} {last : Char} (h : core.length = 10)
    (hl : core.getLast? = some last) : core.getD 9 '0' = last := by
  rw [List.getLast?_eq_getElem?, h] at hl
  rw [List.getD_eq_getD_get?, List.get?_eq_getElem?]
  norm_num at hl ⊢
  rw [hl]
  rfl

theorem checksum_eq_specWeightedSum {core : List Char} (hlen : core.length = 10) :
    ((checksumString (core.dropLast.map digitValue)).map digitValue).sum
      = specWeightedSum core := by
  rw [dropLast_eq_take9 hlen, checksum_eq_spec]
  rfl

theorem coreOf_getLast {core : List Char} (hlen : core.length = 10) :
    ∃ last, core.getLast? = some last := by
  rw [List.getLast?_eq_getElem?, hlen]
  rw [List.getElem?_eq_getElem (by omega)]
  exact ⟨_, rfl⟩

/-- C1: for every raw string matching one of the four accepted shapes whose
working core (hyphens stripped, century prefix dropped) is all decimal digits,
`normalize` succeeds exactly when the 10th digit equals
`(10 - (S mod 10)) mod 10` for the weighted sum S of the claim; on success the
result is the canonical hyphenated form of the core; and in particular
`normalize` accepts "811228-9874" with check digit 4. -/
theorem civic_checksum_characterization (s : String)
    (hshape : matchesShape s.data = true)
    (hdigits : (coreOf s.data).all Char.isDigit = true) :
    ((normalize s).isSome = true ↔ specCheckOk (coreOf s.data))
    ∧ (∀ r, normalize s = some r →
        r.data = (coreOf s.data).take 6 ++ '-' :: (coreOf s.data).drop 6)
    ∧ normalize "811228-9874" = some "811228-9874" := by
  have hlen : (coreOf s.data).length = 10 := coreOf_length hshape
  have hdl : (coreOf s.data).dropLast.all Char.isDigit = true := by
    rw [dropLast_eq_take9 hlen]
    exact List.all_eq_true.mpr fun c hc =>
      List.all_eq_true.mp hdigits c (List.take_subset _ _ hc)
  have hmapm : (coreOf s.data).dropLast.mapM digitVal?
      = some ((coreOf s.data).dropLast.map digitValue) := by
    rw [mapM_digitVal_eq, if_pos hdl]
  obtain ⟨last, hglast⟩ := coreOf_getLast hlen
  have hlastmem : last ∈ coreOf s.data := by
    have hd := List.dropLast_append_getLast? last (Option.mem_def.mpr hglast)
    rw [← hd]
    simp
  have hlastdigit : last.isDigit = true := List.all_eq_true.mp hdigits last hlastmem
  have hcklt : (10 - specWeightedSum (coreOf s.data) % 10) % 10 < 10 :=
    Nat.mod_lt _ (by norm_num)
  have hnorm : normalize s =
      (if (Nat.repr ((10 - specWeightedSum (coreOf s.data) % 10) % 10)).data == [last] then
        some (String.mk ((coreOf s.data).take 6 ++ '-' :: (coreOf s.data).drop 6))
      else none) := by
    unfold normalize
    rw [if_pos hshape]
    dsimp only
    rw [hmapm]
    dsimp only
    rw [hglast]
    dsimp only
    rw [checksum_eq_specWeightedSum hlen]
  refine ⟨?_, ?_, rfl⟩
  · rw [hnorm]
    by_cases hbeq :
        ((Nat.repr ((10 - specWeightedSum (coreOf s.data) % 10) % 10)).data == [last]) = true
    · rw [if_pos hbeq]
      simp only [Option.isSome_some, true_iff]
      unfold specCheckOk
      rw [getD9_eq_last hlen hglast]
      exact (digit_char_iff hlastdigit hcklt).mp hbeq
    · rw [if_neg hbeq]
      simp only [Option.isSome_none]
      constructor
      · intro hfalse
        exact absurd hfalse (by simp)
      · intro hspec
        exfalso
        apply hbeq
        apply (digit_char_iff hlastdigit hcklt).mpr
        unfold specCheckOk at hspec
        rw [getD9_eq_last hlen hglast] at hspec
        exact hspec
  · intro r hr
    rw [hnorm] at hr
    by_cases hbeq :
        ((Nat.repr ((10 - specWeightedSum (coreOf s.data) % 10) % 10)).data == [last]) = true
    · rw [if_pos hbeq] at hr
      cases hr
      rfl
    · rw [if_neg hbeq] at hr
      exact absurd hr (by simp)

/-- Witness for C1 at the concrete civic number from the claim. -/
theorem civic_checksum_characterization_witness :
    matchesShape ("811228-9874").data = true
    ∧ (coreOf ("811228-9874").data).all Char.isDigit = true
    ∧ normalize "811228-9874" = some "811228-9874" :=
  ⟨by decide, by decide,
    (civic_checksum_characterization "811228-9874" (by decide) (by decide)).2.2⟩

/-- C8: `normalize` is a pure function and the canonical output shape is itself
an accepted input shape, so normalizing a successful result succeeds and
returns it unchanged: `normalize` is idempotent on its successes. -/
theorem normalize_idempotent (x r : String) (h : normalize x = some r) :
    normalize r = some r := by
  unfold normalize at h
  by_cases hshape : matchesShape x.data = true
  swap
  · rw [if_neg hshape] at h
    exact absurd h (by simp)
  rw [if_pos hshape] at h
  dsimp only at h
  have hlen : (coreOf x.data).length = 10 := coreOf_length hshape
  rcases hm : (coreOf x.data).dropLast.mapM digitVal? with _ | ds
  · rw [hm] at h
    exact absurd h (by simp)
  rw [hm] at h
  dsimp only at h
  rcases hg : (coreOf x.data).getLast? with _ | last
  · rw [hg] at h
    exact absurd h (by simp)
  rw [hg] at h
  dsimp only at h
  by_cases hbeq :
      ((Nat.repr ((10 - ((checksumString ds).map digitValue).sum % 10) % 10)).data
        == [last]) = true
  swap
  · rw [if_neg hbeq] at h
    exact absurd h (by simp)
  rw [if_pos hbeq] at h
  have hr : r = String.mk ((coreOf x.data).take 6 ++ '-' :: (coreOf x.data).drop 6) := by
    cases h
    rfl
  have hdl : (coreOf x.data).dropLast.all Char.isDigit = true := by
    rw [mapM_digitVal_eq] at hm
    by_cases hd : (coreOf x.data).dropLast.all Char.isDigit
    · exact hd
    · rw [if_neg hd] at hm
      exact absurd hm (by simp)
  have hcklt : (10 - ((checksumString ds).map digitValue).sum % 10) % 10 < 10 :=
    Nat.mod_lt _ (by norm_num)
  have hlastdigit : last.isDigit = true := by
    rw [beq_iff_eq, repr_digit_eq _ hcklt] at hbeq
    have hofn : Char.ofNat (48 + (10 - ((checksumString ds).map digitValue).sum % 10) % 10)
        = last := by injection hbeq
    rw [← hofn]
    exact ofNat_digit_isDigit _ hcklt
  have hdecomp : (coreOf x.data).dropLast ++ [last] = coreOf x.data :=
    List.dropLast_append_getLast? last (Option.mem_def.mpr hg)
  have hcdig : (coreOf x.data).all Char.isDigit = true := by
    rw [← hdecomp, List.all_append]
    simp [hdl, hlastdigit]
  have hword : ∀ c ∈ coreOf x.data, isWordChar c = true := fun c hc =>
    isDigit_isWordChar (List.all_eq_true.mp hcdig c hc)
  have hrdata : r.data = (coreOf x.data).take 6 ++ '-' :: (coreOf x.data).drop 6 := by
    rw [hr]
  have hshape_r : matchesShape r.data = true := by
    unfold matchesShape
    rw [Bool.or_eq_true, Bool.or_eq_true, Bool.or_eq_true]
    left; left; left
    rw [hrdata]
    refine shape6h4_iff.mpr ⟨_, _, rfl, ?_, ?_, ?_, ?_⟩
    · rw [List.length_take]
      omega
    · exact List.all_eq_true.mpr fun c hc => hword c (List.take_subset _ _ hc)
    · rw [List.length_drop]
      omega
    · exact List.all_eq_true.mpr fun c hc => hword c (List.drop_subset _ _ hc)
  have htw : ((coreOf x.data).take 6).all isWordChar = true :=
    List.all_eq_true.mpr fun c hc => hword c (List.take_subset _ _ hc)
  have hdw : ((coreOf x.data).drop 6).all isWordChar = true :=
    List.all_eq_true.mpr fun c hc => hword c (List.drop_subset _ _ hc)
  have hcore_r : coreOf r.data = coreOf x.data := by
    unfold coreOf
    rw [hrdata, stripHyphens_append, stripHyphens_hyphen_cons,
      stripHyphens_of_word htw, stripHyphens_of_word hdw, List.take_append_drop]
    exact dropCentury_of_len10 hlen
  unfold normalize
  rw [if_pos hshape_r]
  dsimp only
  rw [hcore_r, hm]
  dsimp only
  rw [hg]
  dsimp only
  rw [if_pos hbeq, hr]

/-- Witness for C8: re-normalizing the canonical result of the sample civic
number returns it unchanged. -/
theorem normalize_idempotent_witness : normalize "811228-9874" = some "811228-9874" :=
  normalize_idempotent "811228-9874" "811228-9874" normalize_sample

end ConsoleBank
